import Mathlib

/-!
Verification of the LeetCode problem crawler (`src/crawler.py`).

The development shallowly embeds the crawler's control flow in Lean:

* `adaptive_delay` models the delay policy of `adaptive_delay` (lines 47-55)
  as a pure function from the last response and the drawn jitter to the
  slept duration;
* `get_problem_detail` models lines 59-121: a transport-level failure or an
  HTTP error status (for which `response.raise_for_status()` raises an
  `HTTPError`, a `RequestException`) yields `None`;
* `fetchAttempts` models the retry loop of `main` (lines 231-291), recording
  an event trace (requests issued, waits, file writes) and signalling an
  uncaught Python exception (`.crash`) where the source would raise one;
* `selectWork` models the sort/filter of lines 189-199;
* `runItems` / `mainRun` model the fetch loop and the surrounding `main`
  (lines 169-318), with the filesystem as a predicate on file names and the
  per-item attempt outcomes supplied by an environment;
* the serializer and parser towards the end model the persisted-document
  format (`json.dump(detail, f, ensure_ascii=False, indent=4)`) for the
  round-trip property.

Machine-independent idealizations: durations and jitter are rationals,
JSON numbers are integers (floating point is out of scope), and a Python
`str` is identified with its list of code points.
-/

namespace Crawler

/-- JSON values as produced by `json.loads` / `response.json()`.  Numeric
payloads are modelled as integers; an object is an association list of
members in source order. -/
inductive Json where
  | null
  | bool (b : Bool)
  | num (n : Int)
  | str (s : String)
  | arr (items : List Json)
  | obj (pairs : List (String × Json))

/-- Constant `DEFAULT_RETRY_DELAY = 60` (line 22). -/
def DEFAULT_RETRY_DELAY : ℚ := 60

/-- Constant `RATE_LIMIT_DELAY = 60` (line 23). -/
def RATE_LIMIT_DELAY : ℚ := 60

/-- Constant `SLOW_RESPONSE_DELAY = 5` (line 24). -/
def SLOW_RESPONSE_DELAY : ℚ := 5

/-- Constant `NORMAL_DELAY = 1` (line 25). -/
def NORMAL_DELAY : ℚ := 1

/-- Constant `MAX_RETRIES = 3` (line 26). -/
def MAX_RETRIES : Nat := 3

/-- An HTTP response as observed by the crawler: its status code, the
elapsed wall time `response.elapsed.total_seconds()`, and the result of
`response.json()` (`none` models a `json.JSONDecodeError`). -/
structure Response where
  status_code : Nat
  elapsed : ℚ
  body : Option Json

/-- The duration slept by `adaptive_delay` (lines 47-55), with the value
drawn by `random.random()` passed in as `jitter`. -/
def adaptive_delay (response : Response) (jitter : ℚ) : ℚ :=
  if response.status_code = 429 then RATE_LIMIT_DELAY + jitter
  else if response.elapsed > 2 then SLOW_RESPONSE_DELAY + jitter
  else NORMAL_DELAY + jitter

/-- Whether `response.raise_for_status()` raises: it raises an `HTTPError`
exactly for client-error (400-499) and server-error (500-599) statuses. -/
def raisesForStatus (status_code : Nat) : Bool :=
  400 ≤ status_code && status_code ≤ 599

/-- Outcome of `session.post` in `get_problem_detail`: either a
`requests.RequestException` (timeout, connection error, ...) or a response. -/
inductive TransportResult where
  | exn
  | ok (response : Response)

/-- Function `get_problem_detail` (lines 59-121): a transport exception is caught and
yields `None`; `raise_for_status` raises an `HTTPError` (a subclass of
`RequestException`, hence caught by the same handler) for statuses 400-599,
also yielding `None`; otherwise the response is returned. -/
def get_problem_detail : TransportResult → Option Response
  | .exn => none
  | .ok response =>
    if raisesForStatus response.status_code then none else some response

/-- Association-list key lookup, modelling indexing into a parsed JSON
object.  (Python's `json.loads` collapses duplicate keys, keeping the last;
objects produced by the parser below never rely on duplicates.) -/
def lookupKey : List (String × Json) → String → Option Json
  | [], _ => none
  | (k, v) :: rest, key => if k = key then some v else lookupKey rest key

/-- Whether `needle` occurs as a contiguous sublist of the second list;
models Python's substring test `needle in s` for strings. -/
def hasSublist (needle : List Char) : List Char → Bool
  | [] => needle.isEmpty
  | c :: rest => needle.isPrefixOf (c :: rest) || hasSublist needle rest

/-- Whether the Python value `Json.str "data"` occurs in a list; models
`"data" in detail` when `detail` is a JSON array (element equality). -/
def containsDataString : List Json → Bool
  | [] => false
  | .str s :: rest => s == "data" || containsDataString rest
  | _ :: rest => containsDataString rest

/-- The payload validation of lines 261-264:
`"data" not in detail or detail.get("data", {}).get("question") is None`.
`some true` means the payload is classified invalid (retryable), `some false`
means valid, and `none` means the Python expression raises an *uncaught*
exception: an `AttributeError` when `detail["data"]` exists but is not a
dict (e.g. `{"data": null}`, where `None.get` is called), or a
`TypeError`/`AttributeError` when `detail` itself is not a container. -/
def validateDetail : Json → Option Bool
  | .obj members =>
    match lookupKey members "data" with
    | none => some true
    | some (.obj dataMembers) =>
      match lookupKey dataMembers "question" with
      | none => some true
      | some .null => some true
      | some _ => some false
    | some _ => none
  | .arr elems => if containsDataString elems then none else some true
  | .str s => if hasSublist "data".data s.data then none else some true
  | _ => none

/-- The inputs the environment supplies for one attempt of the retry loop:
the transport outcome, the `random.random()` value consumed if
`adaptive_delay` runs on this attempt, and whether the file write (if
reached) succeeds (`false` models an `IOError`). -/
structure AttemptInput where
  transport : TransportResult
  jitter : ℚ
  writeOk : Bool

/-- Observable actions of one item's retry loop, in order: an HTTP request
issued (`get_problem_detail` called), a `time.sleep(DEFAULT_RETRY_DELAY)`,
a call of `adaptive_delay` on the given response with the given jitter, or
a `json.dump` of the parsed payload to the output file. -/
inductive Event where
  | attempt (inp : AttemptInput)
  | fixedWait
  | adaptiveWait (response : Response) (jitter : ℚ)
  | write (doc : Json)

/-- Result of one item's retry loop: `.done written events` with
`written = some detail` exactly when the item succeeded and `detail` was
persisted, or `.crash events` when an uncaught Python exception escaped. -/
inductive FetchResult where
  | done (written : Option Json) (events : List Event)
  | crash (events : List Event)

/-- Prepend events to a retry-loop result's trace. -/
def FetchResult.prepend (evs : List Event) : FetchResult → FetchResult
  | .done w e => .done w (evs ++ e)
  | .crash e => .crash (evs ++ e)

/-- The events of a retry-loop result. -/
def FetchResult.events : FetchResult → List Event
  | .done _ e => e
  | .crash e => e

/-- The retry loop of `main` (lines 231-291).  `rc` is `retry_count`; the
loop guard `retry_count < MAX_RETRIES` is the source's; the second `Nat` is
recursion fuel, and the loop is always entered with `fuel = MAX_RETRIES` so
the guard, not the fuel, terminates it (each iteration increments `rc` by
one or breaks).  `env rc` supplies attempt number `rc`'s inputs. -/
def fetchAttempts (env : Nat → AttemptInput) : Nat → Nat → FetchResult
  | _, 0 => .done none []
  | rc, fuel + 1 =>
    if rc < MAX_RETRIES then
      let inp := env rc
      match get_problem_detail inp.transport with
      | none =>
        -- lines 238-245: `resp is None`
        let rc' := rc + 1
        (fetchAttempts env rc' fuel).prepend
          (.attempt inp :: if rc' < MAX_RETRIES then [.fixedWait] else [])
      | some resp =>
        if resp.status_code ≠ 200 then
          -- lines 247-255: non-200 status, adaptive delay before next attempt
          let rc' := rc + 1
          (fetchAttempts env rc' fuel).prepend
            (.attempt inp :: if rc' < MAX_RETRIES then [.adaptiveWait resp inp.jitter] else [])
        else
          match resp.body with
          | none =>
            -- lines 272-277: JSON decode error
            let rc' := rc + 1
            (fetchAttempts env rc' fuel).prepend
              (.attempt inp :: if rc' < MAX_RETRIES then [.fixedWait] else [])
          | some detail =>
            match validateDetail detail with
            | none => .crash [.attempt inp]
            | some true =>
              -- lines 260-271: invalid response data
              let rc' := rc + 1
              (fetchAttempts env rc' fuel).prepend
                (.attempt inp :: if rc' < MAX_RETRIES then [.fixedWait] else [])
            | some false =>
              if inp.writeOk then
                -- lines 279-286: dump, count success, adaptive delay, break
                .done (some detail) [.attempt inp, .write detail, .adaptiveWait resp inp.jitter]
              else
                -- lines 287-291: IOError on write
                let rc' := rc + 1
                (fetchAttempts env rc' fuel).prepend
                  (.attempt inp :: if rc' < MAX_RETRIES then [.fixedWait] else [])
    else .done none []

/-- One item's full retry loop, started with `retry_count = 0`. -/
def fetchWithRetry (env : Nat → AttemptInput) : FetchResult :=
  fetchAttempts env 0 MAX_RETRIES

/-- The nested `stat` object of one metadata entry (the fields read on
lines 211-214). -/
structure Stat where
  question_id : Int
  question__title_slug : String
  question__title : String

/-- One entry of `metadata["stat_status_pairs"]`. -/
structure StatStatusPair where
  stat : Stat

/-- The output path (relative to `output_dir`) of line 217:
`f"{question_id}.{title_slug}.json"`. -/
def outfileName (question_id : Int) (title_slug : String) : String :=
  toString question_id ++ "." ++ title_slug ++ ".json"

/-- Sort key order of line 190: comparison by `x["stat"]["question_id"]`. -/
def idLE (a b : StatStatusPair) : Prop :=
  a.stat.question_id ≤ b.stat.question_id

instance : DecidableRel idLE := fun a b =>
  inferInstanceAs (Decidable (a.stat.question_id ≤ b.stat.question_id))

instance : IsTotal StatStatusPair idLE :=
  ⟨fun a b => Int.le_total a.stat.question_id b.stat.question_id⟩

instance : IsTrans StatStatusPair idLE :=
  ⟨fun _ _ _ hab hbc => le_trans hab hbc⟩

/-- The range predicate of lines 194-199:
`(start is None or id >= start) and (end is None or id <= end)`. -/
def inRange (start? end? : Option Int) (s : StatStatusPair) : Bool :=
  (start?.all fun st => st ≤ s.stat.question_id) &&
    (end?.all fun en => s.stat.question_id ≤ en)

/-- Lines 189-199: sort `stat_status_pairs` ascending by `question_id`
(Python's stable sort, modelled by insertion sort), then filter by the
optional `[start, end]` range when at least one bound is supplied. -/
def selectWork (pairs : List StatStatusPair) (start? end? : Option Int) :
    List StatStatusPair :=
  let sorted := List.insertionSort idLE pairs
  if start?.isSome || end?.isSome then sorted.filter (inRange start? end?)
  else sorted

/-- The `stats` dictionary of line 202. -/
structure Stats where
  total : Nat
  success : Nat
  skipped : Nat
  failed : Nat

/-- The per-item record of a completed run's trace: the item's
`question_id` and the events of its processing (empty when skipped). -/
structure ItemRec where
  qid : Int
  events : List Event

/-- The fetch loop over the selected items (lines 210-299).  `i` numbers
the items so `env i` supplies item `i`'s attempt inputs; `fs` is the
filesystem's existence predicate on output file names, updated by
successful writes; `none` models an uncaught Python exception aborting the
run.  Returns the final statistics and the per-item trace. -/
def runItems (update : Bool) (env : Nat → Nat → AttemptInput) :
    List StatStatusPair → Nat → (String → Bool) → Stats →
    Option (Stats × List ItemRec)
  | [], _, _, stats => some (stats, [])
  | p :: rest, i, fs, stats =>
    let question := p.stat
    let outfile := outfileName question.question_id question.question__title_slug
    if fs outfile && !update then
      -- lines 216-225: skip-if-exists
      (runItems update env rest (i + 1) fs
          { stats with skipped := stats.skipped + 1 }).map
        fun r => (r.1, ⟨question.question_id, []⟩ :: r.2)
    else
      match fetchWithRetry (env i) with
      | .crash _ => none
      | .done written evs =>
        let fs' : String → Bool :=
          match written with
          | none => fs
          | some _ => fun path => path == outfile || fs path
        let stats' :=
          match written with
          | none => { stats with failed := stats.failed + 1 }
          | some _ => { stats with success := stats.success + 1 }
        (runItems update env rest (i + 1) fs' stats').map
          fun r => (r.1, ⟨question.question_id, evs⟩ :: r.2)

/-- Overall outcome of one `main` invocation: `fatalExit` models
`raise typer.Exit(1)` (lines 177, 182, 187), `crashed` an uncaught Python
exception escaping `main`, and `completed` a run that reaches the final
statistics report. -/
inductive MainResult where
  | fatalExit
  | crashed
  | completed (stats : Stats) (trace : List ItemRec)

/-- Function `main` (lines 169-318).  `metadataPairs` is the outcome of metadata
acquisition (lines 170-184): `none` when the metadata cannot be obtained or
parsed, otherwise `metadata.get("stat_status_pairs", [])`.  The emptiness
check (lines 185-187) precedes sorting and filtering, as in the source;
`stats["total"]` is fixed to the selected length before the loop
(line 202). -/
def mainRun (metadataPairs : Option (List StatStatusPair))
    (start? end? : Option Int) (update : Bool) (fs : String → Bool)
    (env : Nat → Nat → AttemptInput) : MainResult :=
  match metadataPairs with
  | none => .fatalExit
  | some pairs =>
    if pairs.isEmpty then .fatalExit
    else
      let selected := selectWork pairs start? end?
      match runItems update env selected 0 fs ⟨selected.length, 0, 0, 0⟩ with
      | none => .crashed
      | some (st, trace) => .completed st trace

/-- Process exit code: `typer.Exit(1)` exits with 1; an uncaught exception
also exits nonzero (Python prints a traceback and exits 1); a completed run
returns from `main` normally, exiting 0. -/
def exitCode : MainResult → Nat
  | .fatalExit => 1
  | .crashed => 1
  | .completed _ _ => 0

/-- Whether an event is an HTTP request issued by the retry loop. -/
def Event.isAttempt : Event → Bool
  | .attempt _ => true
  | _ => false

/-- Whether an event is a file write. -/
def Event.isWrite : Event → Bool
  | .write _ => true
  | _ => false

/-- The attempt outcomes for which the retry loop waits the *fixed*
`DEFAULT_RETRY_DELAY` before the next attempt: `get_problem_detail`
returned `None` (transport error or error status), or a 200 response with
an unparseable body, an invalid payload, or a failing file write. -/
def fixedFailure (inp : AttemptInput) : Prop :=
  get_problem_detail inp.transport = none ∨
  ∃ r, get_problem_detail inp.transport = some r ∧ r.status_code = 200 ∧
    (r.body = none ∨ ∃ d, r.body = some d ∧
      (validateDetail d = some true ∨
        (validateDetail d = some false ∧ inp.writeOk = false)))

/-- The exact shape of a retry-loop trace, block by block.  Each attempt is
followed by: nothing (final attempt, or crash); the fixed retry delay, for
the failures of `fixedFailure`; the adaptive delay applied to the *failing*
response, exactly when the attempt yielded a non-raising (status outside
400-599) non-200 response; or a write and then the adaptive delay applied
to the *successful* response, which terminates the loop. -/
def waitDiscipline : List Event → Prop
  | [] => True
  | [.attempt _] => True
  | .attempt inp :: .fixedWait :: rest => fixedFailure inp ∧ waitDiscipline rest
  | .attempt inp :: .adaptiveWait r j :: rest =>
      get_problem_detail inp.transport = some r ∧
      raisesForStatus r.status_code = false ∧ r.status_code ≠ 200 ∧
      j = inp.jitter ∧ waitDiscipline rest
  | .attempt inp :: .write d :: .adaptiveWait r j :: rest =>
      get_problem_detail inp.transport = some r ∧
      raisesForStatus r.status_code = false ∧ r.status_code = 200 ∧
      r.body = some d ∧ validateDetail d = some false ∧ inp.writeOk = true ∧
      j = inp.jitter ∧ rest = []
  | _ => False

/-! ### The persisted-document format

Modelled from the spec: the Persistence Sink writes the parsed payload with
`json.dump(detail, f, ensure_ascii=False, indent=4)` (line 282), i.e. as
human-readable JSON indented by four spaces per nesting level, with members
separated by `",\n"` and keys from values by `": "`, preserving non-ASCII
characters unescaped and escaping only `"`, `\` and control characters
(the latter as `\u00XX`); the reader side (`json.load`) is Python's
standard JSON parser, modelled below as a fuel-indexed recursive-descent
parser.  Neither function is part of `src/`; both are modelled from the
spec's round-trip and encoding sentences. -/

/-- JSON whitespace. -/
def isWs (w : Char) : Bool :=
  w.toNat == 32 || w.toNat == 10 || w.toNat == 9 || w.toNat == 13

/-- Drop leading whitespace. -/
def skipWs (s : List Char) : List Char := s.dropWhile isWs

/-- Four spaces of indentation per nesting level (`indent=4`). -/
def indentChars (depth : Nat) : List Char := List.replicate (4 * depth) ' '

/-- Lower-case hexadecimal digit for a value below 16. -/
def hexDigitChar (n : Nat) : Char :=
  if n < 10 then Char.ofNat (48 + n) else Char.ofNat (87 + n)

/-- Modelled from the spec: escaping of one string character under
`ensure_ascii=False` — `"` and `\` get a backslash escape, control
characters become `\u00XX`, and everything else (including non-ASCII) is
emitted unescaped. -/
def escapeChar (c : Char) : List Char :=
  if c = '"' then ['\\', '"']
  else if c = '\\' then ['\\', '\\']
  else if c.toNat < 32 then
    let n := c.toNat
    '\\' :: 'u' :: '0' :: '0' :: [hexDigitChar (n / 16), hexDigitChar (n % 16)]
  else [c]

/-- Escape a whole string. -/
def escapeChars : List Char → List Char
  | [] => []
  | c :: rest => escapeChar c ++ escapeChars rest

/-- Decimal digits of a natural number, most significant first. -/
def natChars (n : Nat) : List Char :=
  if n ≠ 0 then ((Nat.digits 10 n).map fun d => Char.ofNat (48 + d)).reverse
  else ['0']

/-- Decimal rendering of an integer, as Python's `repr`. -/
def intChars (n : Int) : List Char :=
  if n < 0 then '-' :: natChars n.natAbs else natChars n.toNat

mutual

/-- Modelled from the spec: serialization of one JSON value at nesting
depth `depth`, following `json.dump(..., ensure_ascii=False, indent=4)`. -/
def serValue (depth : Nat) : Json → List Char
  | .null => "null".data
  | .bool true => "true".data
  | .bool false => "false".data
  | .num n => intChars n
  | .str s => '"' :: (escapeChars s.data ++ ['"'])
  | .arr [] => ['[', ']']
  | .arr (x :: xs) =>
      '[' :: '\n' :: (indentChars (depth + 1) ++ serValue (depth + 1) x ++
        serTailItems (depth + 1) xs ++ '\n' :: (indentChars depth ++ [']']))
  | .obj [] => ['{', '}']
  | .obj (m :: ms) =>
      '{' :: '\n' :: (indentChars (depth + 1) ++ serMember (depth + 1) m ++
        serTailMembers (depth + 1) ms ++ '\n' :: (indentChars depth ++ ['}']))

/-- Serialization of the second and later array elements, each preceded by
`",\n"` and its indentation. -/
def serTailItems (depth : Nat) : List Json → List Char
  | [] => []
  | y :: ys =>
      ',' :: '\n' :: (indentChars depth ++ serValue depth y ++ serTailItems depth ys)

/-- Serialization of one object member: quoted escaped key, `": "`, value. -/
def serMember (depth : Nat) : String × Json → List Char
  | (k, v) => '"' :: (escapeChars k.data ++ ['"', ':', ' '] ++ serValue depth v)

/-- Serialization of the second and later object members. -/
def serTailMembers (depth : Nat) : List (String × Json) → List Char
  | [] => []
  | m :: ms =>
      ',' :: '\n' :: (indentChars depth ++ serMember depth m ++ serTailMembers depth ms)

end

/-- The bytes (code points) `json.dump(detail, f, ensure_ascii=False,
indent=4)` writes to the output file for payload `detail`. -/
def writeDoc (detail : Json) : List Char := serValue 0 detail

/-- Value of a hexadecimal digit character. -/
def hexVal (c : Char) : Option Nat :=
  let n := c.toNat
  if 48 ≤ n ∧ n ≤ 57 then some (n - 48)
  else if 97 ≤ n ∧ n ≤ 102 then some (n - 87)
  else if 65 ≤ n ∧ n ≤ 70 then some (n - 55)
  else none

/-- Parse the remainder of a JSON string literal (after the opening quote),
returning its characters and the input after the closing quote. -/
def parseStringChars : List Char → Option (List Char × List Char)
  | [] => none
  | c :: rest =>
    if c = '"' then some ([], rest)
    else if c = '\\' then
      match rest with
      | [] => none
      | e :: rest2 =>
        if e = '"' then (parseStringChars rest2).map fun p => ('"' :: p.1, p.2)
        else if e = '\\' then (parseStringChars rest2).map fun p => ('\\' :: p.1, p.2)
        else if e = 'u' then
          match rest2 with
          | h1 :: h2 :: h3 :: h4 :: rest3 =>
            (hexVal h1).bind fun a => (hexVal h2).bind fun b =>
              (hexVal h3).bind fun c2 => (hexVal h4).bind fun d =>
                (parseStringChars rest3).map
                  fun p => (Char.ofNat (4096 * a + 256 * b + 16 * c2 + d) :: p.1, p.2)
          | _ => none
        else none
    else (parseStringChars rest).map fun p => (c :: p.1, p.2)

/-- Numeric value of one digit character. -/
def digitVal (d : Char) : Nat := d.toNat - 48

/-- Value of a list of decimal digit characters, most significant first. -/
def parseNatChars (ds : List Char) : Nat :=
  ds.foldl (fun a c => 10 * a + digitVal c) 0

mutual

/-- Modelled from the spec: recursive-descent JSON value parser (the
reader side of the round trip, Python's `json.load`).  The `Nat` is
recursion fuel bounding the nesting structure; `parseDocument` supplies
the input length, which always suffices. -/
def parseValue : Nat → List Char → Option (Json × List Char)
  | 0, _ => none
  | fuel + 1, s =>
    match skipWs s with
    | [] => none
    | c :: rest =>
      if c = 'n' then
        match rest with
        | c1 :: c2 :: c3 :: r =>
          if c1 = 'u' && c2 = 'l' && c3 = 'l' then some (.null, r) else none
        | _ => none
      else if c = 't' then
        match rest with
        | c1 :: c2 :: c3 :: r =>
          if c1 = 'r' && c2 = 'u' && c3 = 'e' then some (.bool true, r) else none
        | _ => none
      else if c = 'f' then
        match rest with
        | c1 :: c2 :: c3 :: c4 :: r =>
          if c1 = 'a' && c2 = 'l' && c3 = 's' && c4 = 'e' then some (.bool false, r)
          else none
        | _ => none
      else if c = '"' then
        (parseStringChars rest).map fun p => (.str (String.mk p.1), p.2)
      else if c = '[' then
        match skipWs rest with
        | [] => none
        | c2 :: r =>
          if c2 = ']' then some (.arr [], r)
          else (parseItems fuel (c2 :: r)).map fun p => (.arr p.1, p.2)
      else if c = '{' then
        match skipWs rest with
        | [] => none
        | c2 :: r =>
          if c2 = '}' then some (.obj [], r)
          else (parseMembers fuel (c2 :: r)).map fun p => (.obj p.1, p.2)
      else if c = '-' then
        let ds := rest.takeWhile Char.isDigit
        if ds.isEmpty then none
        else some (.num (-(parseNatChars ds : Int)), rest.dropWhile Char.isDigit)
      else if c.isDigit then
        some (.num (parseNatChars ((c :: rest).takeWhile Char.isDigit)),
          (c :: rest).dropWhile Char.isDigit)
      else none

/-- Parse one or more comma-separated array elements and the closing `]`. -/
def parseItems : Nat → List Char → Option (List Json × List Char)
  | 0, _ => none
  | fuel + 1, s =>
    (parseValue fuel s).bind fun p =>
      match skipWs p.2 with
      | [] => none
      | c :: r2 =>
        if c = ',' then (parseItems fuel r2).map fun q => (p.1 :: q.1, q.2)
        else if c = ']' then some ([p.1], r2)
        else none

/-- Parse one or more comma-separated object members and the closing brace. -/
def parseMembers : Nat → List Char → Option (List (String × Json) × List Char)
  | 0, _ => none
  | fuel + 1, s =>
    match skipWs s with
    | [] => none
    | c :: r1 =>
      if c = '"' then
        (parseStringChars r1).bind fun pk =>
          match skipWs pk.2 with
          | [] => none
          | c2 :: r3 =>
            if c2 = ':' then
              (parseValue fuel r3).bind fun pv =>
                match skipWs pv.2 with
                | [] => none
                | c3 :: r4 =>
                  if c3 = ',' then
                    (parseMembers fuel r4).map
                      fun q => ((String.mk pk.1, pv.1) :: q.1, q.2)
                  else if c3 = '}' then some ([(String.mk pk.1, pv.1)], r4)
                  else none
            else none
      else none

end

/-- Parse a whole document: one JSON value followed only by whitespace. -/
def parseDocument (s : List Char) : Option Json :=
  match parseValue s.length s with
  | none => none
  | some (j, rest) => if (skipWs rest).isEmpty then some j else none

mutual

/-- Fuel sufficient for `parseValue` on a serialization of `j`. -/
def parseFuel : Json → Nat
  | .arr xs => 1 + parseFuelItems xs
  | .obj ms => 1 + parseFuelMembers ms
  | .null => 1
  | .num _ => 1
  | .bool _ => 1
  | .str _ => 1

/-- Fuel sufficient for `parseItems` on serialized elements. -/
def parseFuelItems : List Json → Nat
  | [] => 1
  | x :: xs => 1 + parseFuel x + parseFuelItems xs

/-- Fuel sufficient for `parseMembers` on serialized members. -/
def parseFuelMembers : List (String × Json) → Nat
  | [] => 1
  | m :: ms => 1 + parseFuel m.2 + parseFuelMembers ms

end

/-! ## Basic lemmas about the retry loop -/

theorem events_prepend (evs : List Event) (r : FetchResult) :
    (r.prepend evs).events = evs ++ r.events := by
  cases r <;> rfl

theorem fetchAttempts_of_not_lt (env : Nat → AttemptInput) (rc fuel : Nat)
    (h : ¬ rc < MAX_RETRIES) : fetchAttempts env rc fuel = .done none [] := by
  cases fuel <;> simp [fetchAttempts, h]

/-- C2: For every response given to the delay policy: on status 429 the
wait is at least 60 time units; otherwise, if the elapsed time exceeds 2
units the wait is in `[5, 6)`; otherwise the wait is in `[1, 2)` — the base
delay plus a jitter drawn from `[0, 1)`. -/
theorem adaptive_delay_policy (response : Response) (jitter : ℚ)
    (h0 : 0 ≤ jitter) (h1 : jitter < 1) :
    (response.status_code = 429 → 60 ≤ adaptive_delay response jitter) ∧
    (response.status_code ≠ 429 → 2 < response.elapsed →
      5 ≤ adaptive_delay response jitter ∧ adaptive_delay response jitter < 6) ∧
    (response.status_code ≠ 429 → response.elapsed ≤ 2 →
      1 ≤ adaptive_delay response jitter ∧ adaptive_delay response jitter < 2) := by
  unfold adaptive_delay RATE_LIMIT_DELAY SLOW_RESPONSE_DELAY NORMAL_DELAY
  refine ⟨fun h429 => ?_, fun h429 helap => ?_, fun h429 helap => ?_⟩
  · rw [if_pos h429]; linarith
  · rw [if_neg h429, if_pos helap]; constructor <;> linarith
  · rw [if_neg h429, if_neg (not_lt.mpr helap)]; constructor <;> linarith

theorem adaptive_delay_policy_witness :
    60 ≤ adaptive_delay ⟨429, 0, none⟩ (1/2) ∧
    (5 ≤ adaptive_delay ⟨200, 3, none⟩ (1/2) ∧ adaptive_delay ⟨200, 3, none⟩ (1/2) < 6) ∧
    (1 ≤ adaptive_delay ⟨200, 1, none⟩ (1/2) ∧ adaptive_delay ⟨200, 1, none⟩ (1/2) < 2) := by
  refine ⟨?_, ?_, ?_⟩
  · exact (adaptive_delay_policy ⟨429, 0, none⟩ (1/2) (by norm_num) (by norm_num)).1 rfl
  · exact (adaptive_delay_policy ⟨200, 3, none⟩ (1/2) (by norm_num) (by norm_num)).2.1
      (by decide) (by norm_num)
  · exact (adaptive_delay_policy ⟨200, 1, none⟩ (1/2) (by norm_num) (by norm_num)).2.2
      (by decide) (by norm_num)

/-- C5: A selected item whose output file already exists while update
mode is off is recorded with `skipped` incremented by one, an empty event
trace (no network request), an unchanged filesystem, and the loop advances
to the remaining items. -/
theorem skip_existing_no_network (update : Bool) (env : Nat → Nat → AttemptInput)
    (i : Nat) (fs : String → Bool) (stats : Stats) (p : StatStatusPair)
    (rest : List StatStatusPair)
    (hex : fs (outfileName p.stat.question_id p.stat.question__title_slug) = true)
    (hupd : update = false) :
    runItems update env (p :: rest) i fs stats =
      (runItems update env rest (i + 1) fs
          { stats with skipped := stats.skipped + 1 }).map
        (fun r => (r.1, ⟨p.stat.question_id, []⟩ :: r.2)) := by
  subst hupd
  simp [runItems, hex]

theorem skip_existing_no_network_witness :
    runItems false (fun _ _ => ⟨.exn, 0, true⟩) [⟨⟨1, "a", "A"⟩⟩] 0 (fun _ => true)
      ⟨1, 0, 0, 0⟩ = some (⟨1, 0, 1, 0⟩, [⟨1, []⟩]) := by
  rw [skip_existing_no_network false (fun _ _ => ⟨.exn, 0, true⟩) 0 (fun _ => true)
    ⟨1, 0, 0, 0⟩ ⟨⟨1, "a", "A"⟩⟩ [] rfl rfl]
  rfl

/-- C6 (code bug): A run whose metadata is obtained, parsed and
non-empty can still exit nonzero: a selected item whose detail response is
HTTP 200 with body `{"data": null}` makes the validation of lines 261-264
call `None.get("question")`, raising an uncaught `AttributeError` that
aborts `main`, so the process exits nonzero although the metadata index was
fine and the claim requires exit code zero. -/
theorem nonzero_exit_with_good_metadata :
    mainRun (some [⟨⟨1, "two-sum", "Two Sum"⟩⟩]) none none false (fun _ => false)
        (fun _ _ => ⟨.ok ⟨200, 0, some (.obj [("data", .null)])⟩, 0, true⟩) =
      .crashed ∧
    exitCode (mainRun (some [⟨⟨1, "two-sum", "Two Sum"⟩⟩]) none none false
        (fun _ => false)
        (fun _ _ => ⟨.ok ⟨200, 0, some (.obj [("data", .null)])⟩, 0, true⟩)) = 1 :=
  ⟨rfl, rfl⟩

/-- C7 (code bug): An HTTP-200 response whose body is `{"data": null}`
— a payload the claim says is an invalid payload to be retried with the
fixed 60-unit wait — instead raises an uncaught `AttributeError` in the
validation expression (`None` has no `.get`), crashing the retry loop on
its first attempt.  By contrast, when `data` is a dict without a usable
`question` (third conjunct, body `{"data": {}}`), the loop does retry
exactly as claimed: three attempts with the fixed wait between them. -/
theorem data_null_payload_crashes :
    validateDetail (.obj [("data", .null)]) = none ∧
    fetchWithRetry (fun _ => ⟨.ok ⟨200, 0, some (.obj [("data", .null)])⟩, 0, true⟩) =
      .crash [.attempt ⟨.ok ⟨200, 0, some (.obj [("data", .null)])⟩, 0, true⟩] ∧
    fetchWithRetry (fun _ => ⟨.ok ⟨200, 0, some (.obj [("data", .obj [])])⟩, 0, true⟩) =
      .done none
        [.attempt ⟨.ok ⟨200, 0, some (.obj [("data", .obj [])])⟩, 0, true⟩, .fixedWait,
         .attempt ⟨.ok ⟨200, 0, some (.obj [("data", .obj [])])⟩, 0, true⟩, .fixedWait,
         .attempt ⟨.ok ⟨200, 0, some (.obj [("data", .obj [])])⟩, 0, true⟩] :=
  ⟨rfl, rfl, rfl⟩

/-- C3 (counterexample): The delay policy does run after failed fetch
attempts: with every attempt answered by a non-raising non-200 response
(HTTP 304), the retry loop calls `adaptive_delay` on the failing response
after each non-final attempt (line 254) and never sleeps the fixed retry
delay, contradicting "never runs after a failed fetch attempt; failed
attempts wait only the fixed backoff". -/
theorem adaptive_delay_after_failed_attempt :
    fetchWithRetry (fun _ => ⟨.ok ⟨304, 0, none⟩, 0, true⟩) =
      .done none
        [.attempt ⟨.ok ⟨304, 0, none⟩, 0, true⟩, .adaptiveWait ⟨304, 0, none⟩ 0,
         .attempt ⟨.ok ⟨304, 0, none⟩, 0, true⟩, .adaptiveWait ⟨304, 0, none⟩ 0,
         .attempt ⟨.ok ⟨304, 0, none⟩, 0, true⟩] ∧
    Event.adaptiveWait ⟨304, 0, none⟩ 0 ∈
      (fetchWithRetry (fun _ => ⟨.ok ⟨304, 0, none⟩, 0, true⟩)).events ∧
    Event.fixedWait ∉ (fetchWithRetry (fun _ => ⟨.ok ⟨304, 0, none⟩, 0, true⟩)).events := by
  refine ⟨rfl, ?_, ?_⟩ <;> simp [fetchWithRetry, MAX_RETRIES, fetchAttempts,
    get_problem_detail, raisesForStatus, FetchResult.prepend, FetchResult.events]


/-- C1: If every attempt for an item answers with HTTP 500 (for which
`raise_for_status` raises, so `get_problem_detail` returns `None`), the
retry loop makes exactly `MAX_RETRIES` (3) attempts with the fixed wait
between them, writes nothing (so no output file is produced and the
filesystem passed to the remaining items is unchanged), the item is
recorded with `failed` incremented by exactly one, and the loop continues
with the remaining items. -/
theorem retry_exhaustion_all_500 (update : Bool) (env : Nat → Nat → AttemptInput)
    (i : Nat) (fs : String → Bool) (stats : Stats) (p : StatStatusPair)
    (rest : List StatStatusPair)
    (hnoskip : fs (outfileName p.stat.question_id p.stat.question__title_slug) = false ∨
      update = true)
    (h500 : ∀ k, ∃ r, (env i k).transport = TransportResult.ok r ∧ r.status_code = 500) :
    fetchWithRetry (env i) = .done none
      [.attempt (env i 0), .fixedWait, .attempt (env i 1), .fixedWait,
       .attempt (env i 2)] ∧
    (fetchWithRetry (env i)).events.countP Event.isAttempt = MAX_RETRIES ∧
    (fetchWithRetry (env i)).events.countP Event.isWrite = 0 ∧
    runItems update env (p :: rest) i fs stats =
      (runItems update env rest (i + 1) fs
          { stats with failed := stats.failed + 1 }).map
        (fun r => (r.1, ⟨p.stat.question_id, (fetchWithRetry (env i)).events⟩ :: r.2)) := by
  obtain ⟨r0, ht0, hs0⟩ := h500 0
  obtain ⟨r1, ht1, hs1⟩ := h500 1
  obtain ⟨r2, ht2, hs2⟩ := h500 2
  have hfetch : fetchWithRetry (env i) = .done none
      [.attempt (env i 0), .fixedWait, .attempt (env i 1), .fixedWait,
       .attempt (env i 2)] := by
    simp [fetchWithRetry, MAX_RETRIES, fetchAttempts, ht0, ht1, ht2,
      get_problem_detail, raisesForStatus, hs0, hs1, hs2, FetchResult.prepend]
  have hcond : (fs (outfileName p.stat.question_id p.stat.question__title_slug)
      && !update) = false := by
    rcases hnoskip with h | h <;> simp [h]
  refine ⟨hfetch, by rw [hfetch]; rfl, by rw [hfetch]; rfl, ?_⟩
  simp only [runItems, hcond, Bool.false_eq_true, if_false, hfetch]
  rfl


/-- Loop invariant of the fetch loop: a completed pass preserves `total`,
adds exactly one counter increment per item, and records the items'
`question_id`s in processing order. -/
theorem runItems_spec (update : Bool) (env : Nat → Nat → AttemptInput)
    (items : List StatStatusPair) :
    ∀ (i : Nat) (fs : String → Bool) (stats st : Stats) (tr : List ItemRec),
      runItems update env items i fs stats = some (st, tr) →
      st.total = stats.total ∧
      st.success + st.skipped + st.failed =
        stats.success + stats.skipped + stats.failed + items.length ∧
      tr.map ItemRec.qid = items.map fun q => q.stat.question_id := by
  induction items with
  | nil =>
    intro i fs stats st tr h
    simp [runItems] at h
    obtain ⟨rfl, rfl⟩ := h
    simp
  | cons p rest ih =>
    intro i fs stats st tr h
    simp only [runItems] at h
    split at h
    · match hrec : runItems update env rest (i + 1) fs
          { stats with skipped := stats.skipped + 1 } with
      | none => rw [hrec] at h; simp at h
      | some (st', tr') =>
        rw [hrec] at h
        simp only [Option.map_some'] at h
        injection h with h
        obtain ⟨h1, h2⟩ := Prod.mk.injEq .. |>.mp h
        subst h1
        subst h2
        obtain ⟨e1, e2, e3⟩ := ih (i + 1) fs _ _ _ hrec
        refine ⟨by simpa using e1, ?_, by simpa using e3⟩
        simp only [List.length_cons]
        simp at e2
        omega
    · match hf : fetchWithRetry (env i) with
      | .crash evs => rw [hf] at h; simp at h
      | .done written evs =>
        rw [hf] at h
        match written with
        | none =>
          simp only at h
          match hrec : runItems update env rest (i + 1) fs
              { stats with failed := stats.failed + 1 } with
          | none => rw [hrec] at h; simp at h
          | some (st', tr') =>
            rw [hrec] at h
            simp only [Option.map_some'] at h
            injection h with h
            obtain ⟨h1, h2⟩ := Prod.mk.injEq .. |>.mp h
            subst h1
            subst h2
            obtain ⟨e1, e2, e3⟩ := ih (i + 1) _ _ _ _ hrec
            refine ⟨by simpa using e1, ?_, by simpa using e3⟩
            simp only [List.length_cons]
            simp at e2
            omega
        | some doc =>
          simp only at h
          match hrec : runItems update env rest (i + 1)
              (fun path => path == outfileName p.stat.question_id
                  p.stat.question__title_slug || fs path)
              { stats with success := stats.success + 1 } with
          | none => rw [hrec] at h; simp at h
          | some (st', tr') =>
            rw [hrec] at h
            simp only [Option.map_some'] at h
            injection h with h
            obtain ⟨h1, h2⟩ := Prod.mk.injEq .. |>.mp h
            subst h1
            subst h2
            obtain ⟨e1, e2, e3⟩ := ih (i + 1) _ _ _ _ hrec
            refine ⟨by simpa using e1, ?_, by simpa using e3⟩
            simp only [List.length_cons]
            simp at e2
            omega

/-- C9: At the end of every completed run the reported counters satisfy
`total = success + skipped + failed`; `total` equals the number of selected
items (fixed before the loop), and the trace records exactly one entry per
selected item. -/
theorem stats_partition (pairs : List StatStatusPair) (start? end? : Option Int)
    (update : Bool) (fs : String → Bool) (env : Nat → Nat → AttemptInput)
    (st : Stats) (tr : List ItemRec)
    (h : mainRun (some pairs) start? end? update fs env = .completed st tr) :
    st.total = st.success + st.skipped + st.failed ∧
    st.total = (selectWork pairs start? end?).length ∧
    tr.length = st.total := by
  simp only [mainRun] at h
  by_cases hp : pairs.isEmpty
  · rw [if_pos hp] at h; cases h
  · rw [if_neg hp] at h
    match hrun : runItems update env (selectWork pairs start? end?) 0 fs
        ⟨(selectWork pairs start? end?).length, 0, 0, 0⟩ with
    | none => rw [hrun] at h; cases h
    | some (st2, tr2) =>
      rw [hrun] at h
      injection h with h1 h2
      subst h1
      subst h2
      obtain ⟨e1, e2, e3⟩ := runItems_spec update env _ 0 fs _ _ _ hrun
      have e4 := congrArg List.length e3
      simp only [List.length_map] at e4
      simp only [] at e1 e2
      exact ⟨by omega, by omega, by omega⟩

theorem stats_partition_witness :
    (⟨1, 1, 0, 0⟩ : Stats).total =
      (⟨1, 1, 0, 0⟩ : Stats).success + (⟨1, 1, 0, 0⟩ : Stats).skipped +
        (⟨1, 1, 0, 0⟩ : Stats).failed ∧
    (⟨1, 1, 0, 0⟩ : Stats).total = (selectWork [⟨⟨1, "a", "A"⟩⟩] none none).length ∧
    ([⟨1, [.attempt ⟨.ok ⟨200, 0, some (.obj [("data", .obj [("question", .obj [])])])⟩, 0, true⟩,
        .write (.obj [("data", .obj [("question", .obj [])])]),
        .adaptiveWait ⟨200, 0, some (.obj [("data", .obj [("question", .obj [])])])⟩ 0]⟩] :
      List ItemRec).length = (⟨1, 1, 0, 0⟩ : Stats).total :=
  stats_partition [⟨⟨1, "a", "A"⟩⟩] none none false (fun _ => false)
    (fun _ _ => ⟨.ok ⟨200, 0, some (.obj [("data", .obj [("question", .obj [])])])⟩, 0, true⟩)
    ⟨1, 1, 0, 0⟩
    [⟨1, [.attempt ⟨.ok ⟨200, 0, some (.obj [("data", .obj [("question", .obj [])])])⟩, 0, true⟩,
        .write (.obj [("data", .obj [("question", .obj [])])]),
        .adaptiveWait ⟨200, 0, some (.obj [("data", .obj [("question", .obj [])])])⟩ 0]⟩]
    rfl


/-- C4: The work selector's output is sorted ascending by `question_id`
for every input order; with at least one bound supplied it consists exactly
(up to the sorted order) of the input entries in `[start, end]`; with no
bounds it is a permutation of the whole input; and a completed fetch-loop
pass processes exactly the selected items in that order. -/
theorem work_selector_spec (pairs : List StatStatusPair) (start? end? : Option Int) :
    List.Sorted (· ≤ ·) ((selectWork pairs start? end?).map fun q => q.stat.question_id) ∧
    (start?.isSome = true ∨ end?.isSome = true →
      (selectWork pairs start? end?).Perm (pairs.filter (inRange start? end?))) ∧
    (start? = none → end? = none → (selectWork pairs start? end?).Perm pairs) ∧
    (∀ (update : Bool) (env : Nat → Nat → AttemptInput) (fs : String → Bool)
      (stats st : Stats) (tr : List ItemRec),
      runItems update env (selectWork pairs start? end?) 0 fs stats = some (st, tr) →
      tr.map ItemRec.qid = (selectWork pairs start? end?).map fun q => q.stat.question_id) := by
  have hsorted : List.Sorted idLE (List.insertionSort idLE pairs) :=
    List.sorted_insertionSort idLE pairs
  refine ⟨?_, ?_, ?_, ?_⟩
  · unfold selectWork
    split
    · dsimp only
      exact List.Pairwise.map _ (fun a b h => h) (List.Pairwise.filter _ hsorted)
    · dsimp only
      exact List.Pairwise.map _ (fun a b h => h) hsorted
  · intro hb
    have hcond : (start?.isSome || end?.isSome) = true := by
      rcases hb with h | h <;> simp [h]
    unfold selectWork
    dsimp only
    rw [if_pos hcond]
    exact (List.perm_insertionSort idLE pairs).filter _
  · intro h1 h2
    subst h1
    subst h2
    simp only [selectWork, Option.isSome_none, Bool.or_self, Bool.false_eq_true,
      if_false]
    exact List.perm_insertionSort idLE pairs
  · intro update env fs stats st tr h
    exact (runItems_spec update env _ 0 fs stats st tr h).2.2

theorem work_selector_spec_witness :
    (selectWork [⟨⟨5, "e", "E"⟩⟩, ⟨⟨1, "a", "A"⟩⟩, ⟨⟨3, "c", "C"⟩⟩]
        (some 2) (some 4)).Perm
      ([⟨⟨5, "e", "E"⟩⟩, ⟨⟨1, "a", "A"⟩⟩, ⟨⟨3, "c", "C"⟩⟩].filter
        (inRange (some 2) (some 4))) ∧
    ([⟨1, []⟩, ⟨2, []⟩] : List ItemRec).map ItemRec.qid =
      (selectWork [⟨⟨2, "b", "B"⟩⟩, ⟨⟨1, "a", "A"⟩⟩] none none).map
        fun q => q.stat.question_id :=
  ⟨(work_selector_spec [⟨⟨5, "e", "E"⟩⟩, ⟨⟨1, "a", "A"⟩⟩, ⟨⟨3, "c", "C"⟩⟩]
      (some 2) (some 4)).2.1 (Or.inl rfl),
   (work_selector_spec [⟨⟨2, "b", "B"⟩⟩, ⟨⟨1, "a", "A"⟩⟩] none none).2.2.2
      false (fun _ _ => ⟨.exn, 0, true⟩) (fun _ => true) ⟨2, 0, 0, 0⟩ ⟨2, 0, 2, 0⟩
      [⟨1, []⟩, ⟨2, []⟩] rfl⟩


/-- Inversion for a successful `get_problem_detail`: the transport returned
a response and its status is outside the raising range 400-599. -/
theorem get_problem_detail_some {t : TransportResult} {r : Response}
    (h : get_problem_detail t = some r) :
    t = .ok r ∧ raisesForStatus r.status_code = false := by
  cases t with
  | exn => simp [get_problem_detail] at h
  | ok resp =>
    by_cases hr : raisesForStatus resp.status_code = true
    · simp [get_problem_detail, hr] at h
    · simp [get_problem_detail, hr] at h
      subst h
      exact ⟨rfl, by simpa using hr⟩

/-- Every `adaptive_delay` call recorded in a retry-loop trace was applied
to a response whose status is outside the raising range 400-599. -/
theorem adaptiveWait_non_error (env : Nat → AttemptInput) :
    ∀ (fuel rc : Nat) (r : Response) (j : ℚ),
      Event.adaptiveWait r j ∈ (fetchAttempts env rc fuel).events →
      raisesForStatus r.status_code = false := by
  intro fuel
  induction fuel with
  | zero => intro rc r j h; simp [fetchAttempts, FetchResult.events] at h
  | succ fuel ih =>
    intro rc r j h
    simp only [fetchAttempts] at h
    split at h
    case isTrue hrc =>
      cases hg : get_problem_detail (env rc).transport with
      | none =>
        rw [hg] at h
        rw [events_prepend] at h
        simp only [List.mem_append] at h
        rcases h with h | h
        · by_cases h2 : rc + 1 < MAX_RETRIES <;> simp [h2] at h
        · exact ih _ _ _ h
      | some resp =>
        rw [hg] at h
        dsimp only at h
        by_cases hne : resp.status_code ≠ 200
        · rw [if_pos hne] at h
          rw [events_prepend] at h
          simp only [List.mem_append] at h
          rcases h with h | h
          · by_cases h2 : rc + 1 < MAX_RETRIES
            · simp [h2] at h
              obtain ⟨rfl, rfl⟩ := h
              exact (get_problem_detail_some hg).2
            · simp [h2] at h
          · exact ih _ _ _ h
        · rw [if_neg hne] at h
          cases hb : resp.body with
          | none =>
            rw [hb] at h
            dsimp only at h
            rw [events_prepend] at h
            simp only [List.mem_append] at h
            rcases h with h | h
            · by_cases h2 : rc + 1 < MAX_RETRIES <;> simp [h2] at h
            · exact ih _ _ _ h
          | some detail =>
            rw [hb] at h
            dsimp only at h
            cases hv : validateDetail detail with
            | none => rw [hv] at h; simp [FetchResult.events] at h
            | some b =>
              rw [hv] at h
              cases b with
              | true =>
                simp only at h
                rw [events_prepend] at h
                simp only [List.mem_append] at h
                rcases h with h | h
                · by_cases h2 : rc + 1 < MAX_RETRIES <;> simp [h2] at h
                · exact ih _ _ _ h
              | false =>
                simp only at h
                by_cases hw : (env rc).writeOk = true
                · rw [if_pos hw] at h
                  simp only [FetchResult.events, List.mem_cons] at h
                  rcases h with h | h | h | h
                  · cases h
                  · cases h
                  · injection h with h1 h2
                    subst h1
                    have h200 : r.status_code = 200 := by
                      by_contra hc
                      exact hne hc
                    simp [raisesForStatus, h200]
                  · cases h
                · rw [if_neg hw] at h
                  rw [events_prepend] at h
                  simp only [List.mem_append] at h
                  rcases h with h | h
                  · by_cases h2 : rc + 1 < MAX_RETRIES <;> simp [h2] at h
                  · exact ih _ _ _ h
    case isFalse hrc => simp [FetchResult.events] at h

/-- C10: `get_problem_detail` returns `None` for every error-status
(400-599) response, since `raise_for_status` raises; consequently the
status-code branch of the retry loop that applies the adaptive delay to a
failing response is reachable only for non-error non-200 statuses (every
adaptive wait in any trace is for a non-error status), and an attempt whose
transport yields an error-status response takes the `resp is None` path,
waiting the fixed retry delay before the next attempt. -/
theorem error_status_uses_fixed_backoff :
    (∀ r : Response, 400 ≤ r.status_code → r.status_code ≤ 599 →
      get_problem_detail (.ok r) = none) ∧
    (∀ (env : Nat → AttemptInput) (rc fuel : Nat) (r : Response) (j : ℚ),
      Event.adaptiveWait r j ∈ (fetchAttempts env rc fuel).events →
      ¬(400 ≤ r.status_code ∧ r.status_code ≤ 599)) ∧
    (∀ (env : Nat → AttemptInput) (rc fuel : Nat) (r : Response),
      rc < MAX_RETRIES → (env rc).transport = .ok r →
      400 ≤ r.status_code → r.status_code ≤ 599 →
      fetchAttempts env rc (fuel + 1) =
        (fetchAttempts env (rc + 1) fuel).prepend
          (.attempt (env rc) :: if rc + 1 < MAX_RETRIES then [.fixedWait] else [])) := by
  refine ⟨?_, ?_, ?_⟩
  · intro r h4 h5
    simp [get_problem_detail, raisesForStatus, h4, h5]
  · intro env rc fuel r j hmem
    have hfalse := adaptiveWait_non_error env fuel rc r j hmem
    simp only [raisesForStatus] at hfalse
    intro ⟨h4, h5⟩
    simp [h4, h5] at hfalse
  · intro env rc fuel r hrc ht h4 h5
    have hg : get_problem_detail (env rc).transport = none := by
      rw [ht]
      simp [get_problem_detail, raisesForStatus, h4, h5]
    simp only [fetchAttempts, if_pos hrc, hg]

theorem error_status_uses_fixed_backoff_witness :
    get_problem_detail (.ok ⟨500, 0, none⟩) = none ∧
    ¬(400 ≤ (304 : Nat) ∧ (304 : Nat) ≤ 599) ∧
    fetchAttempts (fun _ => ⟨.ok ⟨500, 0, none⟩, 0, true⟩) 0 3 =
      (fetchAttempts (fun _ => ⟨.ok ⟨500, 0, none⟩, 0, true⟩) 1 2).prepend
        (.attempt ⟨.ok ⟨500, 0, none⟩, 0, true⟩ ::
          if 0 + 1 < MAX_RETRIES then [.fixedWait] else []) :=
  ⟨error_status_uses_fixed_backoff.1 ⟨500, 0, none⟩ (by decide) (by decide),
   error_status_uses_fixed_backoff.2.1 (fun _ => ⟨.ok ⟨304, 0, none⟩, 0, true⟩) 0 3
     ⟨304, 0, none⟩ 0 (by simp [fetchAttempts, MAX_RETRIES, get_problem_detail,
       raisesForStatus, FetchResult.prepend, FetchResult.events]),
   error_status_uses_fixed_backoff.2.2 (fun _ => ⟨.ok ⟨500, 0, none⟩, 0, true⟩) 0 2
     ⟨500, 0, none⟩ (by decide) rfl (by decide) (by decide)⟩


/-- Every retry-loop trace obeys `waitDiscipline`: failures wait the fixed
delay except non-raising non-200 statuses, which get the adaptive delay on
the failing response; a success is a write immediately followed by the
adaptive delay on the successful response, ending the loop. -/
theorem fetchAttempts_discipline (env : Nat → AttemptInput) :
    ∀ (fuel rc : Nat), waitDiscipline (fetchAttempts env rc fuel).events := by
  intro fuel
  induction fuel with
  | zero => intro rc; simp [fetchAttempts, FetchResult.events, waitDiscipline]
  | succ fuel ih =>
    intro rc
    by_cases hrc : rc < MAX_RETRIES
    · rw [fetchAttempts, if_pos hrc]
      dsimp only
      cases hg : get_problem_detail (env rc).transport with
      | none =>
        dsimp only
        rw [events_prepend]
        by_cases h2 : rc + 1 < MAX_RETRIES
        · rw [if_pos h2]
          exact ⟨Or.inl hg, ih _⟩
        · rw [if_neg h2, fetchAttempts_of_not_lt env _ _ h2]
          exact trivial
      | some resp =>
        dsimp only
        by_cases hne : resp.status_code ≠ 200
        · rw [if_pos hne, events_prepend]
          by_cases h2 : rc + 1 < MAX_RETRIES
          · rw [if_pos h2]
            exact ⟨hg, (get_problem_detail_some hg).2, hne, rfl, ih _⟩
          · rw [if_neg h2, fetchAttempts_of_not_lt env _ _ h2]
            exact trivial
        · have h200 : resp.status_code = 200 := not_ne_iff.mp hne
          rw [if_neg hne]
          cases hb : resp.body with
          | none =>
            dsimp only
            rw [events_prepend]
            by_cases h2 : rc + 1 < MAX_RETRIES
            · rw [if_pos h2]
              exact ⟨Or.inr ⟨resp, hg, h200, Or.inl hb⟩, ih _⟩
            · rw [if_neg h2, fetchAttempts_of_not_lt env _ _ h2]
              exact trivial
          | some detail =>
            dsimp only
            cases hv : validateDetail detail with
            | none => exact trivial
            | some b =>
              cases b with
              | true =>
                dsimp only
                rw [events_prepend]
                by_cases h2 : rc + 1 < MAX_RETRIES
                · rw [if_pos h2]
                  exact ⟨Or.inr ⟨resp, hg, h200, Or.inr ⟨detail, hb, Or.inl hv⟩⟩, ih _⟩
                · rw [if_neg h2, fetchAttempts_of_not_lt env _ _ h2]
                  exact trivial
              | false =>
                dsimp only
                by_cases hw : (env rc).writeOk = true
                · rw [if_pos hw]
                  exact ⟨hg, (get_problem_detail_some hg).2, h200, hb, hv, hw, rfl, rfl⟩
                · rw [if_neg hw, events_prepend]
                  have hw' : (env rc).writeOk = false := by simpa using hw
                  by_cases h2 : rc + 1 < MAX_RETRIES
                  · rw [if_pos h2]
                    exact ⟨Or.inr ⟨resp, hg, h200,
                      Or.inr ⟨detail, hb, Or.inr ⟨hv, hw'⟩⟩⟩, ih _⟩
                  · rw [if_neg h2, fetchAttempts_of_not_lt env _ _ h2]
                    exact trivial
    · rw [fetchAttempts_of_not_lt env _ _ hrc]
      exact trivial

/-- A successful retry-loop pass ends with the write of the persisted
payload immediately followed by the adaptive delay applied to the
successful (status-200) response. -/
theorem fetchAttempts_success_shape (env : Nat → AttemptInput) :
    ∀ (fuel rc : Nat) (d : Json) (evs : List Event),
      fetchAttempts env rc fuel = .done (some d) evs →
      ∃ (pre : List Event) (inp : AttemptInput) (r : Response),
        evs = pre ++ [.attempt inp, .write d, .adaptiveWait r inp.jitter] ∧
        r.status_code = 200 ∧ r.body = some d := by
  intro fuel
  induction fuel with
  | zero => intro rc d evs h; simp [fetchAttempts] at h
  | succ fuel ih =>
    intro rc d evs h
    by_cases hrc : rc < MAX_RETRIES
    · simp only [fetchAttempts] at h
      rw [if_pos hrc] at h
      cases hg : get_problem_detail (env rc).transport with
      | none =>
        rw [hg] at h
        dsimp only at h
        match hrec : fetchAttempts env (rc + 1) fuel with
        | .done w evs' =>
          rw [hrec] at h
          simp only [FetchResult.prepend] at h
          injection h with h1 h2
          subst h1
          obtain ⟨pre, inp, r, he, h200, hbody⟩ := ih _ _ _ hrec
          exact ⟨(Event.attempt (env rc) ::
            (if rc + 1 < MAX_RETRIES then [Event.fixedWait] else [])) ++ pre, inp, r,
            by rw [← h2, he]; simp, h200, hbody⟩
        | .crash evs' => rw [hrec] at h; simp [FetchResult.prepend] at h
      | some resp =>
        rw [hg] at h
        dsimp only at h
        by_cases hne : resp.status_code ≠ 200
        · rw [if_pos hne] at h
          match hrec : fetchAttempts env (rc + 1) fuel with
          | .done w evs' =>
            rw [hrec] at h
            simp only [FetchResult.prepend] at h
            injection h with h1 h2
            subst h1
            obtain ⟨pre, inp, r, he, h200, hbody⟩ := ih _ _ _ hrec
            exact ⟨(Event.attempt (env rc) ::
              (if rc + 1 < MAX_RETRIES then [Event.adaptiveWait resp (env rc).jitter]
                else [])) ++ pre, inp, r, by rw [← h2, he]; simp, h200, hbody⟩
          | .crash evs' => rw [hrec] at h; simp [FetchResult.prepend] at h
        · have h200 : resp.status_code = 200 := not_ne_iff.mp hne
          rw [if_neg hne] at h
          cases hb : resp.body with
          | none =>
            rw [hb] at h
            dsimp only at h
            match hrec : fetchAttempts env (rc + 1) fuel with
            | .done w evs' =>
              rw [hrec] at h
              simp only [FetchResult.prepend] at h
              injection h with h1 h2
              subst h1
              obtain ⟨pre, inp, r, he, hh200, hbody⟩ := ih _ _ _ hrec
              exact ⟨(Event.attempt (env rc) ::
                (if rc + 1 < MAX_RETRIES then [Event.fixedWait] else [])) ++ pre, inp, r,
                by rw [← h2, he]; simp, hh200, hbody⟩
            | .crash evs' => rw [hrec] at h; simp [FetchResult.prepend] at h
          | some detail =>
            rw [hb] at h
            dsimp only at h
            cases hv : validateDetail detail with
            | none => rw [hv] at h; simp at h
            | some b =>
              rw [hv] at h
              cases b with
              | true =>
                dsimp only at h
                match hrec : fetchAttempts env (rc + 1) fuel with
                | .done w evs' =>
                  rw [hrec] at h
                  simp only [FetchResult.prepend] at h
                  injection h with h1 h2
                  subst h1
                  obtain ⟨pre, inp, r, he, hh200, hbody⟩ := ih _ _ _ hrec
                  exact ⟨(Event.attempt (env rc) ::
                    (if rc + 1 < MAX_RETRIES then [Event.fixedWait] else [])) ++ pre,
                    inp, r, by rw [← h2, he]; simp, hh200, hbody⟩
                | .crash evs' => rw [hrec] at h; simp [FetchResult.prepend] at h
              | false =>
                dsimp only at h
                by_cases hw : (env rc).writeOk = true
                · rw [if_pos hw] at h
                  injection h with h1 h2
                  injection h1 with h1
                  subst h1
                  subst h2
                  exact ⟨[], env rc, resp, rfl, h200, hb⟩
                · rw [if_neg hw] at h
                  match hrec : fetchAttempts env (rc + 1) fuel with
                  | .done w evs' =>
                    rw [hrec] at h
                    simp only [FetchResult.prepend] at h
                    injection h with h1 h2
                    subst h1
                    obtain ⟨pre, inp, r, he, hh200, hbody⟩ := ih _ _ _ hrec
                    exact ⟨(Event.attempt (env rc) ::
                      (if rc + 1 < MAX_RETRIES then [Event.fixedWait] else [])) ++ pre,
                      inp, r, by rw [← h2, he]; simp, hh200, hbody⟩
                  | .crash evs' => rw [hrec] at h; simp [FetchResult.prepend] at h
    · rw [fetchAttempts_of_not_lt env _ _ hrc] at h
      simp at h

/-- C3 (amended): The adaptive delay policy runs, on the successful
response, immediately after every successfully persisted fetch, ending the
item's retry loop; after a failed attempt it runs exactly when the attempt
yielded a non-raising (status outside 400-599) non-200 response, in place
of the fixed backoff; every other failed attempt is followed by the fixed
60-unit backoff, except the final one, which no wait follows. -/
theorem delay_policy_discipline :
    (∀ (env : Nat → AttemptInput) (fuel rc : Nat),
      waitDiscipline (fetchAttempts env rc fuel).events) ∧
    (∀ (env : Nat → AttemptInput) (fuel rc : Nat) (d : Json) (evs : List Event),
      fetchAttempts env rc fuel = .done (some d) evs →
      ∃ (pre : List Event) (inp : AttemptInput) (r : Response),
        evs = pre ++ [.attempt inp, .write d, .adaptiveWait r inp.jitter] ∧
        r.status_code = 200 ∧ r.body = some d) :=
  ⟨fun env fuel rc => fetchAttempts_discipline env fuel rc,
   fun env fuel rc d evs h => fetchAttempts_success_shape env fuel rc d evs h⟩

theorem delay_policy_discipline_witness :
    waitDiscipline
      (fetchAttempts (fun _ => ⟨.ok ⟨304, 0, none⟩, 0, true⟩) 0 MAX_RETRIES).events ∧
    (∃ (pre : List Event) (inp : AttemptInput) (r : Response),
      [Event.attempt ⟨.ok ⟨200, 0, some (.obj [("data", .obj [("question", .obj [])])])⟩, 0, true⟩,
       Event.write (.obj [("data", .obj [("question", .obj [])])]),
       Event.adaptiveWait ⟨200, 0, some (.obj [("data", .obj [("question", .obj [])])])⟩ 0] =
        pre ++ [.attempt inp, .write (.obj [("data", .obj [("question", .obj [])])]),
          .adaptiveWait r inp.jitter] ∧
      r.status_code = 200 ∧
      r.body = some (.obj [("data", .obj [("question", .obj [])])])) :=
  ⟨delay_policy_discipline.1 (fun _ => ⟨.ok ⟨304, 0, none⟩, 0, true⟩) MAX_RETRIES 0,
   delay_policy_discipline.2
     (fun _ => ⟨.ok ⟨200, 0, some (.obj [("data", .obj [("question", .obj [])])])⟩, 0, true⟩)
     MAX_RETRIES 0 (.obj [("data", .obj [("question", .obj [])])]) _ rfl⟩


theorem retry_exhaustion_all_500_witness :
    runItems false (fun _ _ => ⟨.ok ⟨500, 0, none⟩, 0, true⟩)
        [⟨⟨1, "a", "A"⟩⟩, ⟨⟨2, "b", "B"⟩⟩] 0 (fun _ => false) ⟨2, 0, 0, 0⟩ =
      some (⟨2, 0, 0, 2⟩,
        [⟨1, [.attempt ⟨.ok ⟨500, 0, none⟩, 0, true⟩, .fixedWait,
              .attempt ⟨.ok ⟨500, 0, none⟩, 0, true⟩, .fixedWait,
              .attempt ⟨.ok ⟨500, 0, none⟩, 0, true⟩]⟩,
         ⟨2, [.attempt ⟨.ok ⟨500, 0, none⟩, 0, true⟩, .fixedWait,
              .attempt ⟨.ok ⟨500, 0, none⟩, 0, true⟩, .fixedWait,
              .attempt ⟨.ok ⟨500, 0, none⟩, 0, true⟩]⟩]) := by
  have h := retry_exhaustion_all_500 false (fun _ _ => ⟨.ok ⟨500, 0, none⟩, 0, true⟩) 0
    (fun _ => false) ⟨2, 0, 0, 0⟩ ⟨⟨1, "a", "A"⟩⟩ [⟨⟨2, "b", "B"⟩⟩] (Or.inl rfl)
    (fun _ => ⟨⟨500, 0, none⟩, rfl, rfl⟩)
  rw [h.2.2.2]
  rfl


/-! ## Round-trip lemmas for the persisted-document format -/

theorem skipWs_cons_not_ws {c : Char} (h : isWs c = false) (t : List Char) :
    skipWs (c :: t) = c :: t := by
  simp [skipWs, List.dropWhile_cons, h]

theorem skipWs_append_ws {a : List Char} (b : List Char)
    (ha : ∀ c ∈ a, isWs c = true) : skipWs (a ++ b) = skipWs b := by
  induction a with
  | nil => rfl
  | cons c a ih =>
    have hc : isWs c = true := ha c (by simp)
    simp only [List.cons_append, skipWs, List.dropWhile_cons, hc, if_true]
    exact ih fun x hx => ha x (by simp [hx])

theorem indentChars_ws (depth : Nat) : ∀ c ∈ indentChars depth, isWs c = true := by
  intro c hc
  simp [indentChars, List.eq_of_mem_replicate hc, isWs]

theorem isDigit_toNat {c : Char} (h : c.isDigit = true) :
    48 ≤ c.toNat ∧ c.toNat ≤ 57 := by
  simp [Char.isDigit] at h
  exact ⟨h.1, h.2⟩

theorem isWs_not_digit {c : Char} (h : isWs c = true) : c.isDigit = false := by
  by_contra hd
  have hd2 : c.isDigit = true := by simpa using hd
  obtain ⟨h1, h2⟩ := isDigit_toNat hd2
  simp only [isWs, Bool.or_eq_true, beq_iff_eq] at h
  omega

theorem takeWhile_append_stop {p : Char → Bool} (a b : List Char)
    (ha : ∀ c ∈ a, p c = true) (hb : ∀ c, b.head? = some c → p c = false) :
    (a ++ b).takeWhile p = a := by
  induction a with
  | nil =>
    cases b with
    | nil => rfl
    | cons c t => simp [List.takeWhile_cons, hb c rfl]
  | cons c a ih =>
    have hc : p c = true := ha c (by simp)
    simp only [List.cons_append, List.takeWhile_cons, hc, if_true]
    rw [ih fun x hx => ha x (by simp [hx])]

theorem dropWhile_append_stop {p : Char → Bool} (a b : List Char)
    (ha : ∀ c ∈ a, p c = true) (hb : ∀ c, b.head? = some c → p c = false) :
    (a ++ b).dropWhile p = b := by
  induction a with
  | nil =>
    cases b with
    | nil => rfl
    | cons c t => simp [List.dropWhile_cons, hb c rfl]
  | cons c a ih =>
    have hc : p c = true := ha c (by simp)
    simp only [List.cons_append, List.dropWhile_cons, hc, if_true]
    exact ih fun x hx => ha x (by simp [hx])

theorem digit_char_isDigit {d : Nat} (h : d < 10) :
    (Char.ofNat (48 + d)).isDigit = true := by
  interval_cases d <;> decide

theorem digit_char_val {d : Nat} (h : d < 10) : digitVal (Char.ofNat (48 + d)) = d := by
  interval_cases d <;> decide

theorem natChars_digits (n : Nat) : ∀ c ∈ natChars n, c.isDigit = true := by
  intro c hc
  unfold natChars at hc
  by_cases h : n = 0
  · rw [if_neg (by simp [h])] at hc
    simp at hc
    subst hc
    decide
  · rw [if_pos h] at hc
    simp only [List.mem_reverse, List.mem_map] at hc
    obtain ⟨d, hd, rfl⟩ := hc
    exact digit_char_isDigit (Nat.digits_lt_base (by norm_num) hd)

theorem natChars_head_digit (n : Nat) :
    ∃ c t, natChars n = c :: t ∧ c.isDigit = true := by
  match hnc : natChars n with
  | [] =>
    exfalso
    unfold natChars at hnc
    by_cases h : n = 0
    · rw [if_neg (by simp [h])] at hnc; cases hnc
    · rw [if_pos h] at hnc
      have : Nat.digits 10 n ≠ [] := Nat.digits_ne_nil_iff_ne_zero.mpr h
      simp at hnc
      exact this hnc
  | c :: t =>
    exact ⟨c, t, rfl, natChars_digits n c (by rw [hnc]; simp)⟩

theorem foldl_digit_chars (L : List Nat) (hL : ∀ d ∈ L, d < 10) :
    parseNatChars ((L.map fun d => Char.ofNat (48 + d)).reverse) = Nat.ofDigits 10 L := by
  induction L with
  | nil => rfl
  | cons d L ih =>
    simp only [List.map_cons, List.reverse_cons]
    unfold parseNatChars at ih ⊢
    rw [List.foldl_append]
    rw [ih fun x hx => hL x (by simp [hx])]
    simp only [List.foldl_cons, List.foldl_nil, Nat.ofDigits_cons]
    rw [digit_char_val (hL d (by simp))]
    ring

theorem parseNatChars_natChars (n : Nat) : parseNatChars (natChars n) = n := by
  unfold natChars
  by_cases h : n = 0
  · rw [if_neg (by simp [h]), h]; decide
  · rw [if_pos h]
    rw [foldl_digit_chars _ fun d hd => Nat.digits_lt_base (by norm_num) hd]
    exact Nat.ofDigits_digits 10 n

theorem hexVal_hexDigitChar {n : Nat} (h : n < 16) :
    hexVal (hexDigitChar n) = some n := by
  interval_cases n <;> decide

theorem parse_escapeChars (l : List Char) (tail : List Char) :
    parseStringChars (escapeChars l ++ '"' :: tail) = some (l, tail) := by
  induction l with
  | nil =>
    show parseStringChars ('"' :: tail) = some ([], tail)
    rw [parseStringChars.eq_def]
    simp
  | cons c l ih =>
    show parseStringChars ((escapeChar c ++ escapeChars l) ++ '"' :: tail) = _
    rw [List.append_assoc]
    unfold escapeChar
    by_cases h1 : c = '"'
    · subst h1
      rw [if_pos rfl]
      show parseStringChars ('\\' :: '"' :: (escapeChars l ++ '"' :: tail)) = _
      rw [parseStringChars.eq_def]
      simp [ih]
    · rw [if_neg h1]
      by_cases h2 : c = '\\'
      · subst h2
        rw [if_pos rfl]
        show parseStringChars ('\\' :: '\\' :: (escapeChars l ++ '"' :: tail)) = _
        rw [parseStringChars.eq_def]
        simp [ih]
      · rw [if_neg h2]
        by_cases h3 : c.toNat < 32
        · rw [if_pos h3]
          have hhi : c.toNat / 16 < 16 := by omega
          have hlo : c.toNat % 16 < 16 := Nat.mod_lt _ (by norm_num)
          show parseStringChars ('\\' :: 'u' :: '0' :: '0' ::
            hexDigitChar (c.toNat / 16) :: hexDigitChar (c.toNat % 16) ::
            (escapeChars l ++ '"' :: tail)) = _
          rw [parseStringChars.eq_def]
          simp +decide only [hexVal_hexDigitChar hhi, hexVal_hexDigitChar hlo,
            show hexVal '0' = some 0 from rfl, Option.some_bind, ih, Option.map_some',
            if_true, if_false]
          have heq : 4096 * 0 + 256 * 0 + 16 * (c.toNat / 16) + c.toNat % 16 =
              c.toNat := by omega
          rw [heq, Char.ofNat_toNat]
        · rw [if_neg h3]
          show parseStringChars (c :: (escapeChars l ++ '"' :: tail)) = _
          rw [parseStringChars.eq_def]
          simp [if_neg h1, if_neg h2, ih]


theorem parseFuel_pos (j : Json) : 1 ≤ parseFuel j := by
  cases j <;> simp [parseFuel]

theorem isDigit_ne {c : Char} (h : c.isDigit = true) :
    ∀ x ∈ ['n', 't', 'f', '"', '[', '{', '-'], c ≠ x := by
  obtain ⟨h1, h2⟩ := isDigit_toNat h
  intro x hx he
  subst he
  fin_cases hx <;> revert h1 h2 <;> decide

theorem digitChar_facts {c : Char} (h : c.isDigit = true) :
    c ≠ ']' ∧ c ≠ '}' ∧ isWs c = false := by
  obtain ⟨h1, h2⟩ := isDigit_toNat h
  refine ⟨?_, ?_, ?_⟩
  · intro he; subst he; revert h1 h2; decide
  · intro he; subst he; revert h1 h2; decide
  · by_contra hws
    have hws2 : isWs c = true := by simpa using hws
    simp only [isWs, Bool.or_eq_true, beq_iff_eq] at hws2
    omega

theorem serValue_head_good (depth : Nat) (j : Json) :
    ∃ c t, serValue depth j = c :: t ∧ c ≠ ']' ∧ c ≠ '}' ∧ isWs c = false := by
  cases j with
  | null => refine ⟨'n', _, rfl, ?_, ?_, ?_⟩ <;> decide
  | bool b =>
    cases b with
    | false => refine ⟨'f', _, rfl, ?_, ?_, ?_⟩ <;> decide
    | true => refine ⟨'t', _, rfl, ?_, ?_, ?_⟩ <;> decide
  | num n =>
    show ∃ c t, intChars n = c :: t ∧ c ≠ ']' ∧ c ≠ '}' ∧ isWs c = false
    unfold intChars
    by_cases hn : n < 0
    · rw [if_pos hn]
      refine ⟨'-', _, rfl, ?_, ?_, ?_⟩ <;> decide
    · rw [if_neg hn]
      obtain ⟨c, t, hct, hd⟩ := natChars_head_digit n.toNat
      obtain ⟨w1, w2, w3⟩ := digitChar_facts hd
      exact ⟨c, t, hct, w1, w2, w3⟩
  | str s => refine ⟨'"', _, rfl, ?_, ?_, ?_⟩ <;> decide
  | arr xs =>
    cases xs with
    | nil => refine ⟨'[', _, rfl, ?_, ?_, ?_⟩ <;> decide
    | cons x xs => refine ⟨'[', _, rfl, ?_, ?_, ?_⟩ <;> decide
  | obj ms =>
    cases ms with
    | nil => refine ⟨'{', _, rfl, ?_, ?_, ?_⟩ <;> decide
    | cons m ms => refine ⟨'{', _, rfl, ?_, ?_, ?_⟩ <;> decide

theorem head_safe_cons {c : Char} (h : c.isDigit = false) (t : List Char) :
    ∀ x, ((c :: t).head? = some x) → x.isDigit = false := by
  intro x hx
  simp at hx
  subst hx
  exact h

theorem head_safe_ws_append {w : List Char} (hw : ∀ c ∈ w, isWs c = true)
    {b : List Char} (hb : ∀ x, b.head? = some x → x.isDigit = false) :
    ∀ x, (w ++ b).head? = some x → x.isDigit = false := by
  cases w with
  | nil => simpa using hb
  | cons c t =>
    intro x hx
    simp at hx
    subst hx
    exact isWs_not_digit (hw c (by simp))

theorem newline_indent_ws (d : Nat) : ∀ c ∈ '\n' :: indentChars d, isWs c = true := by
  intro c hc
  rcases List.mem_cons.mp hc with rfl | hc
  · decide
  · exact indentChars_ws d c hc

theorem sizeOf_snd_lt (p : String × Json) : sizeOf p.2 < sizeOf p := by
  obtain ⟨k, v⟩ := p
  simp

theorem serMember_eq (depth : Nat) (m : String × Json) :
    serMember depth m =
      '"' :: (escapeChars m.1.data ++ ['"', ':', ' '] ++ serValue depth m.2) := by
  obtain ⟨k, v⟩ := m
  rfl

mutual

theorem roundTrip_value (j : Json) (fuel depth : Nat) (lead rest : List Char)
    (hfuel : parseFuel j ≤ fuel) (hlead : ∀ c ∈ lead, isWs c = true)
    (hrest : ∀ x, rest.head? = some x → x.isDigit = false) :
    parseValue fuel (lead ++ (serValue depth j ++ rest)) = some (j, rest) := by
  cases fuel with
  | zero =>
    have := parseFuel_pos j
    omega
  | succ fuel =>
    rw [parseValue]
    cases j with
    | null =>
      rw [show serValue depth Json.null ++ rest = 'n' :: ('u' :: ('l' :: 'l' :: rest))
        from rfl]
      rw [skipWs_append_ws _ hlead, skipWs_cons_not_ws (by decide)]
      simp +decide
    | bool b =>
      cases b with
      | true =>
        rw [show serValue depth (Json.bool true) ++ rest =
          't' :: ('r' :: ('u' :: 'e' :: rest)) from rfl]
        rw [skipWs_append_ws _ hlead, skipWs_cons_not_ws (by decide)]
        simp +decide
      | false =>
        rw [show serValue depth (Json.bool false) ++ rest =
          'f' :: ('a' :: ('l' :: 's' :: 'e' :: rest)) from rfl]
        rw [skipWs_append_ws _ hlead, skipWs_cons_not_ws (by decide)]
        simp +decide
    | num n =>
      by_cases hn : n < 0
      · rw [show serValue depth (Json.num n) ++ rest =
          '-' :: (natChars n.natAbs ++ rest) by
            show intChars n ++ rest = _
            unfold intChars
            rw [if_pos hn]
            simp]
        rw [skipWs_append_ws _ hlead, skipWs_cons_not_ws (by decide)]
        simp +decide only [if_true, if_false]
        rw [takeWhile_append_stop _ _ (natChars_digits _) hrest,
          dropWhile_append_stop _ _ (natChars_digits _) hrest]
        obtain ⟨c, t, hct, _⟩ := natChars_head_digit n.natAbs
        simp only [List.isEmpty_iff, hct]
        rw [if_neg (by simp)]
        rw [← hct, parseNatChars_natChars]
        simp only [Option.some.injEq, Prod.mk.injEq, Json.num.injEq]
        exact ⟨by omega, trivial⟩
      · obtain ⟨c, t, hct, hd⟩ := natChars_head_digit n.toNat
        have hne := isDigit_ne hd
        obtain ⟨_, _, hw1⟩ := digitChar_facts hd
        rw [show serValue depth (Json.num n) ++ rest = c :: (t ++ rest) by
            show intChars n ++ rest = _
            unfold intChars
            rw [if_neg hn, hct]
            simp]
        rw [skipWs_append_ws _ hlead, skipWs_cons_not_ws hw1]
        simp only [if_neg (hne 'n' (by decide)), if_neg (hne 't' (by decide)),
          if_neg (hne 'f' (by decide)), if_neg (hne '"' (by decide)),
          if_neg (hne '[' (by decide)), if_neg (hne '{' (by decide)),
          if_neg (hne '-' (by decide)), hd, if_true]
        rw [show c :: (t ++ rest) = (c :: t) ++ rest from rfl, ← hct]
        rw [takeWhile_append_stop _ _ (natChars_digits _) hrest,
          dropWhile_append_stop _ _ (natChars_digits _) hrest]
        rw [parseNatChars_natChars]
        simp only [Option.some.injEq, Prod.mk.injEq, Json.num.injEq]
        exact ⟨by omega, trivial⟩
    | str s =>
      rw [show serValue depth (Json.str s) ++ rest =
        '"' :: (escapeChars s.data ++ '"' :: rest) by
          show ('"' :: (escapeChars s.data ++ ['"'])) ++ rest = _
          simp]
      rw [skipWs_append_ws _ hlead, skipWs_cons_not_ws (by decide)]
      simp +decide only [if_true, if_false]
      rw [parse_escapeChars]
      rfl
    | arr xs =>
      cases xs with
      | nil =>
        rw [show serValue depth (Json.arr []) ++ rest = '[' :: ']' :: rest from rfl]
        rw [skipWs_append_ws _ hlead, skipWs_cons_not_ws (by decide)]
        simp +decide only [if_true, if_false]
        rw [skipWs_cons_not_ws (by decide)]
        simp +decide
      | cons x xs =>
        rw [show serValue depth (Json.arr (x :: xs)) ++ rest =
          '[' :: (('\n' :: indentChars (depth + 1)) ++
            (serValue (depth + 1) x ++ (serTailItems (depth + 1) xs ++
              (('\n' :: indentChars depth) ++ ']' :: rest)))) by
            show ('[' :: '\n' :: (indentChars (depth + 1) ++ serValue (depth + 1) x ++
              serTailItems (depth + 1) xs ++ '\n' :: (indentChars depth ++ [']']))) ++
                rest = _
            simp]
        rw [skipWs_append_ws _ hlead, skipWs_cons_not_ws (by decide)]
        simp +decide only [if_true, if_false]
        rw [skipWs_append_ws _ (newline_indent_ws (depth + 1))]
        obtain ⟨c, t, hct, hc1, hc2, hcw⟩ := serValue_head_good (depth + 1) x
        rw [hct]
        simp only [List.cons_append]
        rw [skipWs_cons_not_ws hcw]
        dsimp only
        rw [if_neg hc1]
        have hfx : parseFuelItems (x :: xs) ≤ fuel := by
          simp only [parseFuel] at hfuel
          omega
        have hi := roundTrip_items x xs fuel (depth + 1) []
          ('\n' :: indentChars depth) rest hfx (by simp) (newline_indent_ws depth)
        rw [hct] at hi
        simp only [List.nil_append, List.cons_append, List.append_assoc] at hi ⊢
        rw [hi]
        rfl
    | obj ms =>
      cases ms with
      | nil =>
        rw [show serValue depth (Json.obj []) ++ rest = '{' :: '}' :: rest from rfl]
        rw [skipWs_append_ws _ hlead, skipWs_cons_not_ws (by decide)]
        simp +decide only [if_true, if_false]
        rw [skipWs_cons_not_ws (by decide)]
        simp +decide
      | cons m ms =>
        rw [show serValue depth (Json.obj (m :: ms)) ++ rest =
          '{' :: (('\n' :: indentChars (depth + 1)) ++
            (serMember (depth + 1) m ++ (serTailMembers (depth + 1) ms ++
              (('\n' :: indentChars depth) ++ '}' :: rest)))) by
            show ('{' :: '\n' :: (indentChars (depth + 1) ++
              serMember (depth + 1) m ++ serTailMembers (depth + 1) ms ++
              '\n' :: (indentChars depth ++ ['}']))) ++ rest = _
            simp]
        rw [skipWs_append_ws _ hlead, skipWs_cons_not_ws (by decide)]
        simp +decide only [if_true, if_false]
        rw [skipWs_append_ws _ (newline_indent_ws (depth + 1))]
        rw [serMember_eq]
        simp only [List.cons_append]
        rw [skipWs_cons_not_ws (by decide)]
        dsimp only
        rw [if_neg (by decide : ¬('"' : Char) = '}')]
        have hfm : parseFuelMembers (m :: ms) ≤ fuel := by
          simp only [parseFuel] at hfuel
          omega
        have hi : parseMembers fuel ([] ++ (serMember (depth + 1) m ++
            (serTailMembers (depth + 1) ms ++
              (('\n' :: indentChars depth) ++ '}' :: rest)))) =
            some (m :: ms, rest) :=
          roundTrip_members m.1 m.2 ms fuel (depth + 1) []
            ('\n' :: indentChars depth) rest hfm (by simp) (newline_indent_ws depth)
        rw [serMember_eq] at hi
        simp only [List.nil_append, List.cons_append, List.append_assoc] at hi ⊢
        rw [hi]
        rfl
termination_by sizeOf j
decreasing_by
  all_goals subst_vars
  all_goals try cases m
  all_goals (simp; try omega)

theorem roundTrip_items (x : Json) (xs : List Json) (fuel depth : Nat)
    (lead w rest : List Char)
    (hfuel : parseFuelItems (x :: xs) ≤ fuel)
    (hlead : ∀ c ∈ lead, isWs c = true) (hw : ∀ c ∈ w, isWs c = true) :
    parseItems fuel
        (lead ++ (serValue depth x ++ (serTailItems depth xs ++ (w ++ ']' :: rest)))) =
      some (x :: xs, rest) := by
  cases fuel with
  | zero =>
    simp only [parseFuelItems] at hfuel
    omega
  | succ fuel =>
    rw [parseItems]
    have hsafe : ∀ x2, (serTailItems depth xs ++ (w ++ ']' :: rest)).head? = some x2 →
        x2.isDigit = false := by
      cases xs with
      | nil =>
        simp only [serTailItems, List.nil_append]
        exact head_safe_ws_append hw (head_safe_cons (by decide) _)
      | cons y ys =>
        simp only [serTailItems, List.cons_append]
        exact head_safe_cons (by decide) _
    have hfx : parseFuel x ≤ fuel := by
      simp only [parseFuelItems] at hfuel
      omega
    rw [roundTrip_value x fuel depth lead _ hfx hlead hsafe]
    rw [Option.some_bind]
    cases xs with
    | nil =>
      simp only [serTailItems, List.nil_append]
      rw [skipWs_append_ws _ hw, skipWs_cons_not_ws (by decide)]
      simp +decide
    | cons y ys =>
      simp only [serTailItems, List.cons_append]
      rw [skipWs_cons_not_ws (by decide)]
      simp +decide only [if_true, if_false]
      have hfy : parseFuelItems (y :: ys) ≤ fuel := by
        simp only [parseFuelItems] at hfuel ⊢
        omega
      have hi := roundTrip_items y ys fuel depth ('\n' :: indentChars depth) w rest
        hfy (newline_indent_ws depth) hw
      simp only [List.cons_append, List.append_assoc] at hi ⊢
      rw [hi]
      rfl
termination_by 1 + sizeOf x + sizeOf xs
decreasing_by
  all_goals subst_vars
  all_goals (simp; try omega)

theorem roundTrip_members (k : String) (v : Json) (ms : List (String × Json))
    (fuel depth : Nat) (lead w rest : List Char)
    (hfuel : parseFuelMembers ((k, v) :: ms) ≤ fuel)
    (hlead : ∀ c ∈ lead, isWs c = true) (hw : ∀ c ∈ w, isWs c = true) :
    parseMembers fuel
        (lead ++ (serMember depth (k, v) ++
          (serTailMembers depth ms ++ (w ++ '}' :: rest)))) =
      some ((k, v) :: ms, rest) := by
  cases fuel with
  | zero =>
    simp only [parseFuelMembers] at hfuel
    omega
  | succ fuel =>
    rw [parseMembers]
    rw [show serMember depth (k, v) ++ (serTailMembers depth ms ++ (w ++ '}' :: rest)) =
      '"' :: (escapeChars k.data ++ '"' :: (':' :: (' ' :: (serValue depth v ++
        (serTailMembers depth ms ++ (w ++ '}' :: rest)))))) by
        show ('"' :: (escapeChars k.data ++ ['"', ':', ' '] ++ serValue depth v)) ++
          (serTailMembers depth ms ++ (w ++ '}' :: rest)) = _
        simp]
    rw [skipWs_append_ws _ hlead, skipWs_cons_not_ws (by decide)]
    simp +decide only [if_true, if_false]
    rw [parse_escapeChars]
    rw [Option.some_bind]
    rw [skipWs_cons_not_ws (by decide)]
    simp +decide only [if_true, if_false]
    have hsafe : ∀ x2, (serTailMembers depth ms ++ (w ++ '}' :: rest)).head? = some x2 →
        x2.isDigit = false := by
      cases ms with
      | nil =>
        simp only [serTailMembers, List.nil_append]
        exact head_safe_ws_append hw (head_safe_cons (by decide) _)
      | cons m2 ms2 =>
        simp only [serTailMembers, List.cons_append]
        exact head_safe_cons (by decide) _
    have hfv : parseFuel v ≤ fuel := by
      simp only [parseFuelMembers] at hfuel
      omega
    have hv := roundTrip_value v fuel depth [' ']
      (serTailMembers depth ms ++ (w ++ '}' :: rest)) hfv
      (by intro c hc; simp at hc; subst hc; decide) hsafe
    rw [show ' ' :: (serValue depth v ++ (serTailMembers depth ms ++ (w ++ '}' :: rest))) =
      [' '] ++ (serValue depth v ++ (serTailMembers depth ms ++ (w ++ '}' :: rest)))
      from rfl]
    rw [hv]
    rw [Option.some_bind]
    cases ms with
    | nil =>
      simp only [serTailMembers, List.nil_append]
      rw [skipWs_append_ws _ hw, skipWs_cons_not_ws (by decide)]
      simp +decide
    | cons m2 ms2 =>
      simp only [serTailMembers, List.cons_append]
      rw [skipWs_cons_not_ws (by decide)]
      simp +decide only [if_true, if_false]
      have hfm2 : parseFuelMembers (m2 :: ms2) ≤ fuel := by
        simp only [parseFuelMembers] at hfuel ⊢
        omega
      have hi : parseMembers fuel (('\n' :: indentChars depth) ++
          (serMember depth m2 ++ (serTailMembers depth ms2 ++ (w ++ '}' :: rest)))) =
          some (m2 :: ms2, rest) :=
        roundTrip_members m2.1 m2.2 ms2 fuel depth ('\n' :: indentChars depth)
          w rest hfm2 (newline_indent_ws depth) hw
      simp only [List.cons_append, List.append_assoc] at hi ⊢
      rw [hi]
      rfl
termination_by 1 + sizeOf v + sizeOf ms
decreasing_by
  all_goals subst_vars
  all_goals try cases m2
  all_goals (simp; try omega)

end


mutual

theorem parseFuel_le_length (depth : Nat) (j : Json) :
    parseFuel j ≤ (serValue depth j).length := by
  cases j with
  | null =>
    rw [show serValue depth Json.null = ['n', 'u', 'l', 'l'] from rfl]
    simp [parseFuel]
  | bool b =>
    cases b with
    | true =>
      rw [show serValue depth (Json.bool true) = ['t', 'r', 'u', 'e'] from rfl]
      simp [parseFuel]
    | false =>
      rw [show serValue depth (Json.bool false) = ['f', 'a', 'l', 's', 'e'] from rfl]
      simp [parseFuel]
  | num n =>
    show parseFuel (Json.num n) ≤ (intChars n).length
    obtain ⟨c, t, hct, _⟩ := natChars_head_digit n.natAbs
    obtain ⟨c2, t2, hct2, _⟩ := natChars_head_digit n.toNat
    unfold intChars
    by_cases hn : n < 0
    · rw [if_pos hn, hct]
      simp [parseFuel]
    · rw [if_neg hn, hct2]
      simp [parseFuel]
  | str s =>
    rw [show serValue depth (Json.str s) = '"' :: (escapeChars s.data ++ ['"'])
      from rfl]
    simp [parseFuel]
  | arr xs =>
    cases xs with
    | nil =>
      rw [show serValue depth (Json.arr []) = ['[', ']'] from rfl]
      simp [parseFuel, parseFuelItems]
    | cons x xs =>
      have hx := parseFuel_le_length (depth + 1) x
      have hi := parseFuelItems_le_length (depth + 1) xs
      show 1 + parseFuelItems (x :: xs) ≤
        ('[' :: '\n' :: (indentChars (depth + 1) ++ serValue (depth + 1) x ++
          serTailItems (depth + 1) xs ++ '\n' :: (indentChars depth ++ [']']))).length
      simp only [parseFuelItems, List.length_cons, List.length_append]
      omega
  | obj ms =>
    cases ms with
    | nil =>
      rw [show serValue depth (Json.obj []) = ['{', '}'] from rfl]
      simp [parseFuel, parseFuelMembers]
    | cons m ms =>
      have hv := parseFuel_le_length (depth + 1) m.2
      have hi := parseFuelMembers_le_length (depth + 1) ms
      have hfm : parseFuelMembers (m :: ms) =
          1 + parseFuel m.2 + parseFuelMembers ms := rfl
      have hm : (serMember (depth + 1) m).length =
          1 + (escapeChars m.1.data).length + 3 + (serValue (depth + 1) m.2).length := by
        rw [serMember_eq]
        simp
        try omega
      show 1 + parseFuelMembers (m :: ms) ≤
        ('{' :: '\n' :: (indentChars (depth + 1) ++ serMember (depth + 1) m ++
          serTailMembers (depth + 1) ms ++ '\n' :: (indentChars depth ++ ['}']))).length
      simp only [List.length_cons, List.length_append]
      omega
termination_by sizeOf j
decreasing_by
  all_goals subst_vars
  all_goals (first
    | (simp; all_goals omega)
    | (simp; have h := sizeOf_snd_lt ‹String × Json›; omega))

theorem parseFuelItems_le_length (depth : Nat) (xs : List Json) :
    parseFuelItems xs ≤ 2 + (serTailItems depth xs).length := by
  cases xs with
  | nil => simp [parseFuelItems, serTailItems]
  | cons x xs =>
    have hx := parseFuel_le_length depth x
    have hi := parseFuelItems_le_length depth xs
    show 1 + parseFuel x + parseFuelItems xs ≤
      2 + (',' :: '\n' :: (indentChars depth ++ serValue depth x ++
        serTailItems depth xs)).length
    simp only [List.length_cons, List.length_append]
    omega
termination_by sizeOf xs
decreasing_by
  all_goals subst_vars
  all_goals (simp; try omega)

theorem parseFuelMembers_le_length (depth : Nat) (ms : List (String × Json)) :
    parseFuelMembers ms ≤ 2 + (serTailMembers depth ms).length := by
  cases ms with
  | nil => simp [parseFuelMembers, serTailMembers]
  | cons m ms =>
    have hv := parseFuel_le_length depth m.2
    have hi := parseFuelMembers_le_length depth ms
    have hfm : parseFuelMembers (m :: ms) =
        1 + parseFuel m.2 + parseFuelMembers ms := rfl
    have hm : (serMember depth m).length =
        1 + (escapeChars m.1.data).length + 3 + (serValue depth m.2).length := by
      rw [serMember_eq]
      simp
      try omega
    show parseFuelMembers (m :: ms) ≤
      2 + (',' :: '\n' :: (indentChars depth ++ serMember depth m ++
        serTailMembers depth ms)).length
    simp only [List.length_cons, List.length_append]
    omega
termination_by sizeOf ms
decreasing_by
  all_goals subst_vars
  all_goals (first
    | (simp; all_goals omega)
    | (simp; have h := sizeOf_snd_lt ‹String × Json›; omega))

end

theorem parseDocument_writeDoc (j : Json) : parseDocument (writeDoc j) = some j := by
  unfold parseDocument writeDoc
  have h := roundTrip_value j ((serValue 0 j).length) 0 [] []
    (parseFuel_le_length 0 j) (by simp) (by simp)
  simp only [List.nil_append, List.append_nil] at h
  rw [h]
  simp [skipWs]

/-- C8: Round trip of the Persistence Sink: re-parsing the bytes that
`json.dump(detail, f, ensure_ascii=False, indent=4)` writes for any payload
yields exactly the originally parsed payload, so the on-disk bytes equal
the payload re-serialized under the same formatting rules; moreover
non-ASCII characters are preserved unescaped (second conjunct) while `"`
and `\` are backslash-escaped (third conjunct). -/
theorem persisted_document_round_trip :
    (∀ detail : Json, parseDocument (writeDoc detail) = some detail) ∧
    escapeChars "héllo, 世界!".data = "héllo, 世界!".data ∧
    String.mk (escapeChars "a\"b\\c".data) = "a\\\"b\\\\c" :=
  ⟨parseDocument_writeDoc, rfl, rfl⟩

end Crawler
